import Mathlib

/-!
# EmotiveChatFlow — verification of the real-time chat core

Shallow embedding of the server core of a real-time chat service:
the in-memory message store (`MemStorage` in `server/storage.ts`), the
keyword sentiment classifier, the WebSocket session handlers and the
`POST /api/message` ingestion endpoint (`registerRoutes` in
`server/routes.ts`).

Modelling conventions:
- JS `Map` objects become insertion-ordered association lists
  (`Map.set` updates an existing key in place and appends a new key).
- `Array.prototype.sort` with the `createdAt` comparator is a stable
  comparison sort (ES2019), embedded as a stable insertion sort.
- Connections are identified by an abstract `Nat` handle; the mutable
  `userId` / `username` fields that the route code stores on each
  `ChatWebSocket` object live in a per-handle `ConnState`.
- Every externally visible emission (a targeted `ws.send` or a
  `broadcast`) is appended to an event log, each broadcast recording
  the registry snapshot it was delivered to.
- The asynchronous parts (the `'message'`/`'close'`/`'error'` handler
  callbacks, HTTP requests, and `setTimeout` firings) interleave as
  atomic steps of a transition relation `Step`, matching the
  single-threaded event-loop execution model of Node.js.
-/

/- ========================================================================
   Sentiment classifier (`analyzeSentiment` in `server/routes.ts`)
   ======================================================================== -/

/-- JS `String.prototype.toLowerCase`, per-character mapping (it agrees with
JS on the ASCII alphabet, which covers both word lists). -/
def jsToLowerCase (s : String) : String := ⟨s.data.map Char.toLower⟩

/-- Contiguous-substring test on character lists. -/
def containsSub (needle : List Char) : List Char → Bool
  | [] => needle.isEmpty
  | hay@(_ :: t) => needle.isPrefixOf hay || containsSub needle t

/-- JS `String.prototype.includes`: contiguous substring containment. -/
def strIncludes (hay needle : String) : Bool := containsSub needle.data hay.data

/-- The fixed positive word list of `analyzeSentiment`. -/
def positiveWords : List String :=
  ["happy", "love", "great", "awesome", "wonderful", "excellent", "amazing",
   "fantastic", "good", "nice"]

/-- The fixed negative word list of `analyzeSentiment`. -/
def negativeWords : List String :=
  ["sad", "angry", "bad", "terrible", "awful", "hate", "horrible",
   "disgusting", "worst", "annoying"]

/-- `analyzeSentiment(text)`: lower-case, check each list for a substring hit,
then return `positive` / `negative` / `neutral` by the two-flag rule. -/
def analyzeSentiment (text : String) : String :=
  let lowerText := jsToLowerCase text
  let hasPositive := positiveWords.any (fun word => strIncludes lowerText word)
  let hasNegative := negativeWords.any (fun word => strIncludes lowerText word)
  if hasPositive && !hasNegative then "positive"
  else if hasNegative && !hasPositive then "negative"
  else if hasPositive && hasNegative then "neutral"
  else "neutral"

/-- `hasPositive` of `analyzeSentiment(text)`, named for specification reuse. -/
def hasPositiveIn (text : String) : Bool :=
  positiveWords.any (fun word => strIncludes (jsToLowerCase text) word)

/-- `hasNegative` of `analyzeSentiment(text)`, named for specification reuse. -/
def hasNegativeIn (text : String) : Bool :=
  negativeWords.any (fun word => strIncludes (jsToLowerCase text) word)

/- ========================================================================
   Message store (`MemStorage` in `server/storage.ts`)
   ======================================================================== -/

/-- A chat message record (`Message` of the shared schema, as constructed by
`MemStorage.createMessage`).  `sentiment` is the literal string stored by the
server (`"pending"`, `"positive"`, `"negative"`, `"neutral"`); `createdAt` is
the creation timestamp in milliseconds. -/
structure Message where
  id : Nat
  userId : String
  username : String
  text : String
  sentiment : String
  createdAt : Nat
  deriving DecidableEq, Repr

/-- The validated insert payload (`InsertMessage` of the shared schema). -/
structure InsertMessage where
  userId : String
  username : String
  text : String
  deriving DecidableEq, Repr

/-- JS `Map.prototype.get` on an insertion-ordered association list. -/
def mapGet : List (Nat × Message) → Nat → Option Message
  | [], _ => none
  | p :: t, k => if p.1 == k then some p.2 else mapGet t k

/-- JS `Map.prototype.set`: an existing key keeps its insertion position and
gets the new value; a missing key is appended at the end. -/
def mapSet : List (Nat × Message) → Nat → Message → List (Nat × Message)
  | [], k, v => [(k, v)]
  | p :: t, k, v => if p.1 == k then (k, v) :: t else p :: mapSet t k v

/-- JS `Array.from(map.values())`: the values in insertion order. -/
def mapValues (m : List (Nat × Message)) : List Message := m.map Prod.snd

/-- The in-memory store: the `messages` map and the `currentMessageId`
counter.  (The `users` map of `MemStorage` is untouched by every route and is
omitted.) -/
structure MemStorage where
  messages : List (Nat × Message)
  currentMessageId : Nat
  deriving DecidableEq, Repr

/-- The `MemStorage` constructor: empty map, counter starts at 1. -/
def MemStorage.init : MemStorage := { messages := [], currentMessageId := 1 }

/-- `createMessage`: take the next id (post-incrementing the counter), build
the record with `sentiment: "pending"` and `createdAt: new Date()` (the
caller-supplied current time `now`), store it, and return it. -/
def MemStorage.createMessage (s : MemStorage) (insertMessage : InsertMessage)
    (now : Nat) : Message × MemStorage :=
  let id := s.currentMessageId
  let message : Message :=
    { id := id, userId := insertMessage.userId, username := insertMessage.username,
      text := insertMessage.text, sentiment := "pending", createdAt := now }
  (message, { messages := mapSet s.messages id message, currentMessageId := id + 1 })

/-- Stable insertion step for the `createdAt` comparator: the inserted element
passes elements with a strictly smaller key and stops in front of the first
element with a greater-or-equal key. -/
def insertByCreatedAt (m : Message) : List Message → List Message
  | [] => [m]
  | x :: xs =>
      if x.createdAt < m.createdAt then x :: insertByCreatedAt m xs
      else m :: x :: xs

/-- Stable sort by `createdAt` (insertion sort; extensionally the ES2019
stable `Array.prototype.sort` under the comparator
`(a, b) => a.createdAt.getTime() - b.createdAt.getTime()`). -/
def sortByCreatedAt : List Message → List Message
  | [] => []
  | x :: xs => insertByCreatedAt x (sortByCreatedAt xs)

/-- `getMessages`: all stored values, sorted by `createdAt`. -/
def MemStorage.getMessages (s : MemStorage) : List Message :=
  sortByCreatedAt (mapValues s.messages)

/-- `updateMessageSentiment(id, sentiment)`: look the id up; when found,
store and return the record with the new sentiment; otherwise return
`undefined` and leave the store untouched. -/
def MemStorage.updateMessageSentiment (s : MemStorage) (id : Nat)
    (sentiment : String) : Option Message × MemStorage :=
  match mapGet s.messages id with
  | some message =>
      let updatedMessage := { message with sentiment := sentiment }
      (some updatedMessage, { s with messages := mapSet s.messages id updatedMessage })
  | none => (none, s)

/-- Store well-formedness: every entry is keyed by its message's id, every
key is below the counter, and keys occur in strictly increasing insertion
order (so the key set is duplicate-free, as for a JS `Map`). -/
abbrev StorageInv (s : MemStorage) : Prop :=
  (∀ p ∈ s.messages, p.2.id = p.1 ∧ p.1 < s.currentMessageId) ∧
  (s.messages.map Prod.fst).Pairwise (· < ·)

/- ========================================================================
   Server state and handlers (`registerRoutes` in `server/routes.ts`)
   ======================================================================== -/

/-- The mutable identity fields the route code stores on a `ChatWebSocket`
handle (`ws.userId`, `ws.username`), both `undefined` until a join. -/
structure ConnState where
  userId : Option String
  username : Option String
  deriving DecidableEq, Repr

/-- A freshly accepted socket: no identity recorded. -/
def ConnState.init : ConnState := { userId := none, username := none }

/-- JS truthiness of the `ws.username` field: `undefined` and `""` are
falsy, every other string is truthy. -/
def strTruthy : Option String → Bool
  | none => false
  | some s => !(s == "")

/-- An externally visible emission.  `initialMessages` is the targeted
`ws.send`; the others are `broadcast` calls, each recording the registry
snapshot (`recipients`) it was delivered to and, where the payload carries
it, the `clients.size` online count. -/
inductive Event where
  | initialMessages (dest : Nat) (messages : List Message)
  | userJoined (username : String) (onlineCount : Nat) (recipients : List Nat)
  | userLeft (username : String) (onlineCount : Nat) (recipients : List Nat)
  | newMessage (message : Message) (recipients : List Nat)
  | sentimentUpdate (messageId : Nat) (sentiment : String) (recipients : List Nat)
  deriving DecidableEq, Repr

/-- The whole server: the `clients` registry (a `Set<ChatWebSocket>`, here
the insertion-ordered list of live handles), the per-handle identity fields,
the shared store, the scheduled `setTimeout` sentiment tasks (each closure
captures the created `Message`), and the emission log (oldest first). -/
structure ServerState where
  clients : List Nat
  conns : Nat → ConnState
  storage : MemStorage
  tasks : List Message
  log : List Event

/-- Server start: empty registry, empty store, nothing scheduled. -/
def ServerState.init : ServerState :=
  { clients := [], conns := fun _ => ConnState.init, storage := MemStorage.init,
    tasks := [], log := [] }

/-- `wss.on('connection', ...)`: register the fresh handle (`clients.add(ws)`);
its identity fields start unset. -/
def handleConnection (s : ServerState) (c : Nat) : ServerState :=
  { s with clients := s.clients ++ [c],
           conns := fun k => if k = c then ConnState.init else s.conns k }

/-- The `'message'` handler for a parsed `{type: 'join', userId, username}`
payload: unconditionally record the identity on the socket, send the current
message list back to the joining connection, and broadcast `user_joined`
carrying the raw registry size. -/
def handleJoin (s : ServerState) (c : Nat) (userId username : String) :
    ServerState :=
  { s with
    conns := fun k =>
      if k = c then { userId := some userId, username := some username }
      else s.conns k,
    log := s.log ++
      [Event.initialMessages c s.storage.getMessages,
       Event.userJoined username s.clients.length s.clients] }

/-- The `'close'` handler: `clients.delete(ws)`, then broadcast `user_left`
(with the post-removal registry size) iff `ws.username` is truthy. -/
def handleClose (s : ServerState) (c : Nat) : ServerState :=
  let clients' := s.clients.filter (fun k => k != c)
  match (s.conns c).username with
  | some u =>
      if u = "" then { s with clients := clients' }
      else { s with clients := clients',
                    log := s.log ++ [Event.userLeft u clients'.length clients'] }
  | none => { s with clients := clients' }

/-- The `'error'` handler: `clients.delete(ws)` only; no broadcast. -/
def handleError (s : ServerState) (c : Nat) : ServerState :=
  { s with clients := s.clients.filter (fun k => k != c) }

/-- A transport error end to end: the `ws` transport emits `'error'` and then
always emits `'close'` on the same socket, so both handlers run in order. -/
def handleTransportError (s : ServerState) (c : Nat) : ServerState :=
  handleClose (handleError s c) c

/-- The raw body of `POST /api/message`. -/
structure PostBody where
  userId : String
  username : String
  text : String
  deriving DecidableEq, Repr

/-- The HTTP response of `POST /api/message`: `200 {success: true, message}`
or `400 {error: 'Invalid message data'}`. -/
inductive PostResponse where
  | ok (message : Message)
  | badRequest
  deriving DecidableEq, Repr

/-- Modelled from the spec: `insertMessageSchema.parse` is defined in
`shared/schema.ts`, which is not among the sources; per the spec it
"validates `text` is non-empty (and any other structural constraints of the
shared schema)" and throws a validation error otherwise. -/
def insertMessageSchemaParse (body : PostBody) : Option InsertMessage :=
  if body.text = "" then none
  else some { userId := body.userId, username := body.username, text := body.text }

/-- `app.post('/api/message')`: validate the body; on success create the
message (pending sentiment), broadcast `new_message` immediately, schedule
the deferred sentiment task (the 3000 ms `setTimeout`), and answer 200; when
validation throws, answer 400 with no side effect. -/
def postMessage (s : ServerState) (body : PostBody) (now : Nat) :
    PostResponse × ServerState :=
  match insertMessageSchemaParse body with
  | none => (PostResponse.badRequest, s)
  | some validatedData =>
      let (message, storage') := s.storage.createMessage validatedData now
      (PostResponse.ok message,
       { s with storage := storage',
                log := s.log ++ [Event.newMessage message s.clients],
                tasks := s.tasks ++ [message] })

/-- The deferred `setTimeout` body for the captured `message`: classify its
text, update the store, and broadcast `sentiment_update` only when the update
found the record (`if (updatedMessage)`). -/
def fireSentimentTask (s : ServerState) (message : Message) : ServerState :=
  let sentiment := analyzeSentiment message.text
  let result := s.storage.updateMessageSentiment message.id sentiment
  let s' := { s with storage := result.2, tasks := s.tasks.erase message }
  match result.1 with
  | some _ =>
      { s' with log := s'.log ++
          [Event.sentimentUpdate message.id sentiment s'.clients] }
  | none => s'

/-- One atomic event-loop callback: a connection accept, a parsed join
payload, a close, a transport error, an HTTP submission, or the firing of a
scheduled sentiment task. -/
inductive Step : ServerState → ServerState → Prop where
  | connect {s : ServerState} (c : Nat) (h : c ∉ s.clients) :
      Step s (handleConnection s c)
  | join {s : ServerState} (c : Nat) (h : c ∈ s.clients)
      (userId username : String) : Step s (handleJoin s c userId username)
  | close {s : ServerState} (c : Nat) (h : c ∈ s.clients) :
      Step s (handleClose s c)
  | error {s : ServerState} (c : Nat) (h : c ∈ s.clients) :
      Step s (handleTransportError s c)
  | post {s : ServerState} (body : PostBody) (now : Nat) :
      Step s (postMessage s body now).2
  | fire {s : ServerState} (m : Message) (h : m ∈ s.tasks) :
      Step s (fireSentimentTask s m)

/-- States reachable from server start by interleaved callbacks. -/
inductive Reachable : ServerState → Prop where
  | init : Reachable ServerState.init
  | step {s s' : ServerState} : Reachable s → Step s s' → Reachable s'

/- ========================================================================
   Association-list (JS `Map`) lemmas
   ======================================================================== -/

/-- `Map.set` then `Map.get` at the same key yields the stored value. -/
theorem mapGet_mapSet_self (m : List (Nat × Message)) (k : Nat) (v : Message) :
    mapGet (mapSet m k v) k = some v := by
  induction m with
  | nil => simp [mapGet, mapSet]
  | cons p t ih =>
      by_cases h : p.1 = k
      · simp [mapGet, mapSet, h]
      · simp only [mapSet, beq_iff_eq, h, if_false]
        simpa [mapGet, h] using ih

/-- `Map.set` leaves every other key's binding unchanged. -/
theorem mapGet_mapSet_ne (m : List (Nat × Message)) {k k' : Nat} (v : Message)
    (h : k' ≠ k) : mapGet (mapSet m k v) k' = mapGet m k' := by
  induction m with
  | nil => simp [mapGet, mapSet, Ne.symm h]
  | cons p t ih =>
      by_cases hp : p.1 = k
      · simp [mapGet, mapSet, hp, Ne.symm h]
      · simp [mapGet, mapSet, hp, ih]

/-- A `Map.get` hit means the pair (with the queried key) is a stored entry. -/
theorem mapGet_some_mem {m : List (Nat × Message)} {k : Nat} {v : Message}
    (h : mapGet m k = some v) : (k, v) ∈ m := by
  induction m with
  | nil => simp [mapGet] at h
  | cons p t ih =>
      by_cases hp : p.1 = k
      · simp only [mapGet, hp, beq_self_eq_true, if_true, Option.some.injEq] at h
        rw [← hp, ← h]
        exact List.mem_cons_self p t
      · simp only [mapGet, beq_iff_eq, hp, if_false] at h
        exact List.mem_cons_of_mem p (ih h)

/-- A key misses iff no entry carries it. -/
theorem mapGet_eq_none_iff {m : List (Nat × Message)} {k : Nat} :
    mapGet m k = none ↔ ∀ p ∈ m, p.1 ≠ k := by
  induction m with
  | nil => simp [mapGet]
  | cons p t ih =>
      by_cases hp : p.1 = k
      · simp [mapGet, hp]
      · simp [mapGet, hp, ih]

/-- A `Map.get` hit iff the key is among the stored keys. -/
theorem mapGet_isSome_iff {m : List (Nat × Message)} {k : Nat} :
    (mapGet m k).isSome = true ↔ k ∈ m.map Prod.fst := by
  induction m with
  | nil => simp [mapGet]
  | cons p t ih =>
      by_cases hp : p.1 = k
      · simp [mapGet, hp]
      · simp [mapGet, hp, ih, Ne.symm hp]

/-- Setting a key that is already stored keeps the key sequence unchanged. -/
theorem mapSet_keys_of_mem {m : List (Nat × Message)} {k : Nat} (v : Message)
    (h : k ∈ m.map Prod.fst) :
    (mapSet m k v).map Prod.fst = m.map Prod.fst := by
  induction m with
  | nil => simp at h
  | cons p t ih =>
      by_cases hp : p.1 = k
      · simp [mapSet, hp]
      · simp only [List.map_cons, List.mem_cons, Ne.symm hp, false_or] at h
        simp [mapSet, hp, ih h]

/-- Setting a fresh key appends the new entry at the end. -/
theorem mapSet_of_none {m : List (Nat × Message)} {k : Nat} (v : Message)
    (h : mapGet m k = none) : mapSet m k v = m ++ [(k, v)] := by
  induction m with
  | nil => simp [mapSet]
  | cons p t ih =>
      by_cases hp : p.1 = k
      · simp [mapGet, hp] at h
      · simp only [mapGet, beq_iff_eq, hp, if_false] at h
        simp [mapSet, hp, ih h]

/-- Every entry of `mapSet m k v` is an old entry or the new pair. -/
theorem mem_mapSet {m : List (Nat × Message)} {k : Nat} {v : Message}
    {q : Nat × Message} (h : q ∈ mapSet m k v) : q ∈ m ∨ q = (k, v) := by
  induction m with
  | nil => simp [mapSet] at h; simp [h]
  | cons p t ih =>
      by_cases hp : p.1 = k
      · simp only [mapSet, hp, beq_self_eq_true, if_true, List.mem_cons] at h
        rcases h with h | h
        · exact Or.inr h
        · exact Or.inl (List.mem_cons_of_mem p h)
      · simp only [mapSet, beq_iff_eq, hp, if_false, List.mem_cons] at h
        rcases h with h | h
        · exact Or.inl (by simp [h])
        · rcases ih h with h' | h'
          · exact Or.inl (List.mem_cons_of_mem p h')
          · exact Or.inr h'

/- ========================================================================
   Sorting lemmas for `getMessages`
   ======================================================================== -/

/-- The strict "sorted by `createdAt`, ties broken by id" order. -/
def MsgLex (a b : Message) : Prop :=
  a.createdAt < b.createdAt ∨ (a.createdAt = b.createdAt ∧ a.id < b.id)

/-- Inserting permutes: the result is the element consed on the input. -/
theorem insertByCreatedAt_perm (m : Message) (l : List Message) :
    (insertByCreatedAt m l).Perm (m :: l) := by
  induction l with
  | nil => simp [insertByCreatedAt]
  | cons x xs ih =>
      by_cases h : x.createdAt < m.createdAt
      · simp only [insertByCreatedAt, h, if_true]
        exact (ih.cons x).trans (List.Perm.swap m x xs)
      · simp [insertByCreatedAt, h]

/-- The sort permutes its input. -/
theorem sortByCreatedAt_perm : ∀ l : List Message, (sortByCreatedAt l).Perm l
  | [] => List.Perm.refl []
  | x :: xs =>
      (insertByCreatedAt_perm x (sortByCreatedAt xs)).trans
        ((sortByCreatedAt_perm xs).cons x)

/-- Inserting an element whose id is below every id in a `MsgLex`-sorted list
keeps the list `MsgLex`-sorted (this is exactly stability: the fresh element
ends up before every element with an equal `createdAt`). -/
theorem insertByCreatedAt_pairwise {m : Message} {l : List Message}
    (hl : l.Pairwise MsgLex) (hid : ∀ x ∈ l, m.id < x.id) :
    (insertByCreatedAt m l).Pairwise MsgLex := by
  induction l with
  | nil => simp [insertByCreatedAt]
  | cons x xs ih =>
      rcases List.pairwise_cons.mp hl with ⟨hx, hxs⟩
      by_cases h : x.createdAt < m.createdAt
      · simp only [insertByCreatedAt, h, if_true]
        refine List.pairwise_cons.mpr ⟨?_, ih hxs (fun y hy => hid y (List.mem_cons_of_mem x hy))⟩
        intro b hb
        rcases List.mem_cons.mp ((insertByCreatedAt_perm m xs).mem_iff.mp hb) with rfl | hb'
        · exact Or.inl h
        · exact hx b hb'
      · simp only [insertByCreatedAt, h, if_false]
        refine List.pairwise_cons.mpr ⟨?_, hl⟩
        intro b hb
        have hmb : m.createdAt ≤ x.createdAt := Nat.le_of_not_lt h
        have hmblex : m.createdAt ≤ b.createdAt := by
          rcases List.mem_cons.mp hb with rfl | hb'
          · exact hmb
          · rcases hx b hb' with h' | h'
            · exact Nat.le_trans hmb (Nat.le_of_lt h')
            · exact Nat.le_trans hmb (Nat.le_of_eq h'.1)
        rcases Nat.lt_or_ge m.createdAt b.createdAt with hlt | hge
        · exact Or.inl hlt
        · exact Or.inr ⟨Nat.le_antisymm hmblex hge, hid b hb⟩

/-- Sorting a list whose ids strictly increase yields a `MsgLex`-sorted list:
equal `createdAt` runs stay in id order. -/
theorem sortByCreatedAt_pairwise : ∀ {l : List Message},
    l.Pairwise (fun a b => a.id < b.id) → (sortByCreatedAt l).Pairwise MsgLex := by
  intro l
  induction l with
  | nil => intro _; simp [sortByCreatedAt]
  | cons x xs ih =>
      intro hl
      rcases List.pairwise_cons.mp hl with ⟨hx, hxs⟩
      exact insertByCreatedAt_pairwise (ih hxs)
        (fun y hy => hx y ((sortByCreatedAt_perm xs).mem_iff.mp hy))

/- ========================================================================
   Store invariant preservation
   ======================================================================== -/

/-- The fresh store is well-formed. -/
theorem storageInv_init : StorageInv MemStorage.init := by
  constructor <;> simp [MemStorage.init, StorageInv]

/-- On a well-formed store the next id is not yet a key. -/
theorem mapGet_currentMessageId_none {s : MemStorage} (hInv : StorageInv s) :
    mapGet s.messages s.currentMessageId = none :=
  mapGet_eq_none_iff.mpr fun p hp =>
    Nat.ne_of_lt ((hInv.1 p hp).2)

/-- `createMessage` preserves store well-formedness. -/
theorem storageInv_createMessage {s : MemStorage} (hInv : StorageInv s)
    (im : InsertMessage) (now : Nat) :
    StorageInv (s.createMessage im now).2 := by
  have hnone := mapGet_currentMessageId_none hInv
  constructor
  · intro p hp
    simp only [MemStorage.createMessage, mapSet_of_none _ hnone,
      List.mem_append, List.mem_singleton] at hp
    rcases hp with hp | rfl
    · exact ⟨(hInv.1 p hp).1, Nat.lt_succ_of_lt (hInv.1 p hp).2⟩
    · exact ⟨rfl, Nat.lt_succ_self _⟩
  · simp only [MemStorage.createMessage, mapSet_of_none _ hnone, List.map_append]
    rw [List.pairwise_append]
    refine ⟨hInv.2, by simp, ?_⟩
    intro a ha b hb
    simp only [List.map_cons, List.map_nil, List.mem_singleton] at hb
    subst hb
    rcases List.mem_map.mp ha with ⟨p, hp, rfl⟩
    exact (hInv.1 p hp).2

/-- `updateMessageSentiment` preserves store well-formedness. -/
theorem storageInv_updateMessageSentiment {s : MemStorage} (hInv : StorageInv s)
    (id : Nat) (label : String) :
    StorageInv (s.updateMessageSentiment id label).2 := by
  unfold MemStorage.updateMessageSentiment
  cases hGet : mapGet s.messages id with
  | none => simpa [hGet] using hInv
  | some msg =>
      have hmem : (id, msg) ∈ s.messages := mapGet_some_mem hGet
      have hkey : id ∈ s.messages.map Prod.fst := List.mem_map.mpr ⟨(id, msg), hmem, rfl⟩
      have hid : msg.id = id := (hInv.1 (id, msg) hmem).1
      constructor
      · intro p hp
        rcases mem_mapSet hp with hp' | rfl
        · exact hInv.1 p hp'
        · exact ⟨hid, (hInv.1 (id, msg) hmem).2⟩
      · simpa [mapSet_keys_of_mem _ hkey] using hInv.2

/-- On a well-formed store the values' ids strictly increase in insertion
order. -/
theorem mapValues_pairwise_id {s : MemStorage} (hInv : StorageInv s) :
    (mapValues s.messages).Pairwise (fun a b => a.id < b.id) := by
  have h2 := hInv.2
  rw [List.pairwise_map] at h2
  rw [mapValues, List.pairwise_map]
  exact h2.imp_of_mem fun {p q} hp hq hr => by
    rw [(hInv.1 p hp).1, (hInv.1 q hq).1]; exact hr

/- ========================================================================
   Event counting and ordering (for the broadcast lifecycle)
   ======================================================================== -/

/-- Does this event announce `new_message` for the message with id `id`? -/
def isNewMessageFor (id : Nat) : Event → Bool
  | Event.newMessage m _ => m.id == id
  | _ => false

/-- Does this event announce `sentiment_update` for the message id `id`? -/
def isSentimentUpdateFor (id : Nat) : Event → Bool
  | Event.sentimentUpdate mid _ _ => mid == id
  | _ => false

/-- Number of `new_message` broadcasts for `id` in the log. -/
def countNewMessage (id : Nat) (log : List Event) : Nat :=
  log.countP (isNewMessageFor id)

/-- Number of `sentiment_update` broadcasts for `id` in the log. -/
def countSentimentUpdate (id : Nat) (log : List Event) : Nat :=
  log.countP (isSentimentUpdateFor id)

/-- Number of scheduled sentiment tasks whose captured message has id `id`. -/
def countTask (id : Nat) (tasks : List Message) : Nat :=
  tasks.countP (fun m => m.id == id)

/-- The log contains a `new_message` broadcast for `id`. -/
abbrev HasNewMessageFor (id : Nat) (log : List Event) : Prop :=
  ∃ e ∈ log, isNewMessageFor id e = true

/-- Every log prefix that contains a `sentiment_update` for `id` already
contains the `new_message` broadcast for `id`: the update is emitted strictly
after the creation broadcast. -/
def UpdateAfterCreate (id : Nat) (log : List Event) : Prop :=
  ∀ p, p <+: log → (∃ e ∈ p, isSentimentUpdateFor id e = true) →
    ∃ e ∈ p, isNewMessageFor id e = true

/-- Decomposition of a prefix of an append. -/
theorem prefix_of_append {α : Type} {p l t : List α} (h : p <+: l ++ t) :
    p <+: l ∨ ∃ t', t' <+: t ∧ p = l ++ t' := by
  induction l generalizing p with
  | nil => exact Or.inr ⟨p, by simpa using h, by simp⟩
  | cons a l' ih =>
      cases p with
      | nil => exact Or.inl List.nil_prefix
      | cons b p' =>
          rw [List.cons_append] at h
          rcases List.cons_prefix_cons.mp h with ⟨rfl, hp'⟩
          rcases ih hp' with h1 | ⟨t', ht', rfl⟩
          · exact Or.inl (List.cons_prefix_cons.mpr ⟨rfl, h1⟩)
          · exact Or.inr ⟨t', ht', by simp⟩

/-- Removing an element that the predicate counts decrements the count. -/
theorem countP_erase_pos {α : Type} [DecidableEq α] {p : α → Bool} {a : α}
    {l : List α} (ha : a ∈ l) (hp : p a = true) :
    (l.erase a).countP p + 1 = l.countP p := by
  induction l with
  | nil => simp at ha
  | cons b t ih =>
      by_cases hb : b = a
      · subst hb
        simp [List.erase_cons, List.countP_cons, hp]
      · have hat : a ∈ t := by
          rcases List.mem_cons.mp ha with h | h
          · exact absurd h.symm hb
          · exact h
        have : (b :: t).erase a = b :: t.erase a := by
          simp [List.erase_cons, hb]
        rw [this, List.countP_cons, List.countP_cons]
        have h2 := ih hat
        omega

/-- Removing an element that the predicate does not count keeps the count. -/
theorem countP_erase_neg {α : Type} [DecidableEq α] {p : α → Bool} {a : α}
    {l : List α} (hp : p a = false) :
    (l.erase a).countP p = l.countP p := by
  induction l with
  | nil => simp
  | cons b t ih =>
      by_cases hb : b = a
      · subst hb
        simp [List.erase_cons, List.countP_cons, hp]
      · have : (b :: t).erase a = b :: t.erase a := by
          simp [List.erase_cons, hb]
        rw [this, List.countP_cons, List.countP_cons, ih]

/- ========================================================================
   Server invariant
   ======================================================================== -/

/-- The inductive invariant of the server: broadcast counts balance scheduled
tasks, ids are announced at most once and only below the counter, every
scheduled task's message is still stored, updates come after creations, and
the store is well-formed. -/
structure ServerInv (s : ServerState) : Prop where
  balance : ∀ id, countSentimentUpdate id s.log + countTask id s.tasks =
    countNewMessage id s.log
  fresh : ∀ id, s.storage.currentMessageId ≤ id → countNewMessage id s.log = 0
  atMostOne : ∀ id, countNewMessage id s.log ≤ 1
  taskStored : ∀ m ∈ s.tasks, (mapGet s.storage.messages m.id).isSome = true
  ordered : ∀ id, UpdateAfterCreate id s.log
  storage_inv : StorageInv s.storage

/-- Appending events that are neither `new_message` nor `sentiment_update`
broadcasts (while keeping tasks and storage) preserves the invariant. -/
theorem serverInv_extendLog {s t : ServerState} (h : ServerInv s)
    (es : List Event) (hlog : t.log = s.log ++ es) (htasks : t.tasks = s.tasks)
    (hstorage : t.storage = s.storage)
    (hes : ∀ e ∈ es, ∀ id,
      isNewMessageFor id e = false ∧ isSentimentUpdateFor id e = false) :
    ServerInv t := by
  have hzNM : ∀ id, es.countP (isNewMessageFor id) = 0 := fun id =>
    List.countP_eq_zero.mpr (fun e he => by simp [(hes e he id).1])
  have hzSU : ∀ id, es.countP (isSentimentUpdateFor id) = 0 := fun id =>
    List.countP_eq_zero.mpr (fun e he => by simp [(hes e he id).2])
  have hNM : ∀ id, countNewMessage id t.log = countNewMessage id s.log := by
    intro id
    rw [hlog, countNewMessage, countNewMessage, List.countP_append, hzNM, Nat.add_zero]
  have hSU : ∀ id, countSentimentUpdate id t.log = countSentimentUpdate id s.log := by
    intro id
    rw [hlog, countSentimentUpdate, countSentimentUpdate, List.countP_append, hzSU,
      Nat.add_zero]
  refine ⟨?_, ?_, ?_, ?_, ?_, ?_⟩
  · intro id; rw [hNM, hSU, htasks]; exact h.balance id
  · intro id hid; rw [hNM]; exact h.fresh id (by rwa [hstorage] at hid)
  · intro id; rw [hNM]; exact h.atMostOne id
  · intro m hm; rw [hstorage]; exact h.taskStored m (by rwa [htasks] at hm)
  · intro id
    rw [hlog]
    intro p hp hsu
    rcases prefix_of_append hp with hp' | ⟨t', ht', rfl⟩
    · exact h.ordered id p hp' hsu
    · rcases hsu with ⟨e, he, hsue⟩
      rcases List.mem_append.mp he with he' | he'
      · rcases h.ordered id s.log List.prefix_rfl ⟨e, he', hsue⟩ with ⟨e', he'', hnm⟩
        exact ⟨e', List.mem_append_left _ he'', hnm⟩
      · rw [(hes e (ht'.subset he') id).2] at hsue
        exact absurd hsue (by simp)
  · rw [hstorage]; exact h.storage_inv

/-- `createMessage` returns exactly the record it builds. -/
theorem createMessage_fst (s : MemStorage) (im : InsertMessage) (now : Nat) :
    (s.createMessage im now).1 =
      { id := s.currentMessageId, userId := im.userId, username := im.username,
        text := im.text, sentiment := "pending", createdAt := now } := rfl

/-- The store after `createMessage`. -/
theorem createMessage_snd (s : MemStorage) (im : InsertMessage) (now : Nat) :
    (s.createMessage im now).2 =
      { messages := mapSet s.messages s.currentMessageId (s.createMessage im now).1,
        currentMessageId := s.currentMessageId + 1 } := rfl

/-- `updateMessageSentiment` on a missing id returns `undefined` and the very
same store. -/
theorem updateMessageSentiment_of_none {s : MemStorage} {id : Nat}
    (label : String) (h : mapGet s.messages id = none) :
    s.updateMessageSentiment id label = (none, s) := by
  unfold MemStorage.updateMessageSentiment
  rw [h]

/-- `updateMessageSentiment` on a present id stores and returns the updated
record. -/
theorem updateMessageSentiment_of_some {s : MemStorage} {id : Nat}
    {msg : Message} (label : String) (h : mapGet s.messages id = some msg) :
    s.updateMessageSentiment id label =
      (some { msg with sentiment := label },
       { s with messages := mapSet s.messages id { msg with sentiment := label } }) := by
  unfold MemStorage.updateMessageSentiment
  rw [h]

/-- The deferred task on a still-present message: store update plus
`sentiment_update` broadcast, and the task leaves the schedule. -/
theorem fireSentimentTask_of_some {s : ServerState} {m msg0 : Message}
    (hGet : mapGet s.storage.messages m.id = some msg0) :
    fireSentimentTask s m =
      { s with
        storage := (s.storage.updateMessageSentiment m.id (analyzeSentiment m.text)).2,
        tasks := s.tasks.erase m,
        log := s.log ++
          [Event.sentimentUpdate m.id (analyzeSentiment m.text) s.clients] } := by
  simp only [fireSentimentTask, updateMessageSentiment_of_some _ hGet]

/-- The deferred task on an already-missing message: the update is a no-op
and nothing is broadcast; only the task leaves the schedule. -/
theorem fireSentimentTask_of_none {s : ServerState} {m : Message}
    (hGet : mapGet s.storage.messages m.id = none) :
    fireSentimentTask s m = { s with tasks := s.tasks.erase m } := by
  simp only [fireSentimentTask, updateMessageSentiment_of_none _ hGet]

/-- The invariant holds at server start. -/
theorem serverInv_init : ServerInv ServerState.init := by
  refine ⟨?_, ?_, ?_, ?_, ?_, storageInv_init⟩ <;>
    simp [ServerState.init, countNewMessage, countSentimentUpdate, countTask,
      UpdateAfterCreate, MemStorage.init]

/-- `connection` preserves the invariant. -/
theorem serverInv_handleConnection {s : ServerState} (h : ServerInv s)
    (c : Nat) : ServerInv (handleConnection s c) :=
  serverInv_extendLog h [] (by simp [handleConnection]) rfl rfl (by simp)

/-- `join` preserves the invariant. -/
theorem serverInv_handleJoin {s : ServerState} (h : ServerInv s) (c : Nat)
    (uid un : String) : ServerInv (handleJoin s c uid un) := by
  refine serverInv_extendLog h
    [Event.initialMessages c s.storage.getMessages,
     Event.userJoined un s.clients.length s.clients] rfl rfl rfl ?_
  intro e he id
  rcases List.mem_cons.mp he with rfl | he
  · exact ⟨rfl, rfl⟩
  · rcases List.mem_cons.mp he with rfl | he
    · exact ⟨rfl, rfl⟩
    · simp at he

/-- `close` preserves the invariant. -/
theorem serverInv_handleClose {s : ServerState} (h : ServerInv s) (c : Nat) :
    ServerInv (handleClose s c) := by
  unfold handleClose
  cases hu : (s.conns c).username with
  | none => exact serverInv_extendLog h [] (by simp) rfl rfl (by simp)
  | some u =>
      by_cases he : u = ""
      · simp only [he, if_true]
        exact serverInv_extendLog h [] (by simp) rfl rfl (by simp)
      · simp only [he, if_false]
        refine serverInv_extendLog h
          [Event.userLeft u (s.clients.filter (fun k => k != c)).length
            (s.clients.filter (fun k => k != c))] rfl rfl rfl ?_
        intro e hee id
        rcases List.mem_cons.mp hee with rfl | hee
        · exact ⟨rfl, rfl⟩
        · simp at hee

/-- `error` preserves the invariant. -/
theorem serverInv_handleError {s : ServerState} (h : ServerInv s) (c : Nat) :
    ServerInv (handleError s c) :=
  serverInv_extendLog h [] (by simp [handleError]) rfl rfl (by simp)

/-- A transport error (error handler then close handler) preserves the
invariant. -/
theorem serverInv_handleTransportError {s : ServerState} (h : ServerInv s)
    (c : Nat) : ServerInv (handleTransportError s c) :=
  serverInv_handleClose (serverInv_handleError h c) c

/-- The single-event count of a `new_message` broadcast. -/
theorem countP_newMessage_single (id : Nat) (msg : Message) (rec : List Nat) :
    List.countP (isNewMessageFor id) [Event.newMessage msg rec] =
      (if msg.id = id then 1 else 0) := by
  by_cases h : msg.id = id <;> simp [List.countP_cons, isNewMessageFor, h]

/-- The single-event count of a `sentiment_update` broadcast. -/
theorem countP_sentimentUpdate_single (id mid : Nat) (sent : String)
    (rec : List Nat) :
    List.countP (isSentimentUpdateFor id) [Event.sentimentUpdate mid sent rec] =
      (if mid = id then 1 else 0) := by
  by_cases h : mid = id <;> simp [List.countP_cons, isSentimentUpdateFor, h]

/-- A successful submission preserves the invariant. -/
theorem serverInv_post_some {s : ServerState} (h : ServerInv s)
    (v : InsertMessage) (now : Nat) :
    ServerInv
      { s with storage := (s.storage.createMessage v now).2,
               log := s.log ++
                 [Event.newMessage (s.storage.createMessage v now).1 s.clients],
               tasks := s.tasks ++ [(s.storage.createMessage v now).1] } := by
  have bmid : (s.storage.createMessage v now).1.id = s.storage.currentMessageId := by
    rw [createMessage_fst]
  have bcur : (s.storage.createMessage v now).2.currentMessageId =
      s.storage.currentMessageId + 1 := by rw [createMessage_snd]
  have hfresh0 : countNewMessage s.storage.currentMessageId s.log = 0 :=
    h.fresh _ (Nat.le_refl _)
  refine ⟨?_, ?_, ?_, ?_, ?_, ?_⟩
  · intro id
    show countSentimentUpdate id (s.log ++ [_]) + countTask id (s.tasks ++ [_]) =
      countNewMessage id (s.log ++ [_])
    rw [countSentimentUpdate, countNewMessage, List.countP_append, List.countP_append,
      countTask, List.countP_append]
    rw [show List.countP (isSentimentUpdateFor id)
        [Event.newMessage (s.storage.createMessage v now).1 s.clients] = 0 by
      simp [List.countP_cons, isSentimentUpdateFor]]
    rw [countP_newMessage_single]
    rw [show List.countP (fun m => m.id == id) [(s.storage.createMessage v now).1] =
        (if (s.storage.createMessage v now).1.id = id then 1 else 0) by
      by_cases hid : (s.storage.createMessage v now).1.id = id <;>
        simp [List.countP_cons, hid]]
    by_cases hid : (s.storage.createMessage v now).1.id = id
    · have hz : countNewMessage id s.log = 0 := by
        rw [← hid, bmid]; exact hfresh0
      rw [countNewMessage] at hz
      have hb := h.balance id
      rw [countSentimentUpdate, countTask, countNewMessage] at hb
      rw [hz, hid]
      rw [hz] at hb
      omega
    · have hb := h.balance id
      rw [countSentimentUpdate, countTask, countNewMessage] at hb
      omega
  · intro id hid
    rw [bcur] at hid
    show countNewMessage id (s.log ++ [_]) = 0
    rw [countNewMessage, List.countP_append, countP_newMessage_single]
    have h1 : countNewMessage id s.log = 0 := h.fresh id (by omega)
    rw [countNewMessage] at h1
    rw [h1, if_neg (by omega : ¬(s.storage.createMessage v now).1.id = id)]
  · intro id
    show countNewMessage id (s.log ++ [_]) ≤ 1
    rw [countNewMessage, List.countP_append, countP_newMessage_single]
    by_cases hid : (s.storage.createMessage v now).1.id = id
    · have hz : countNewMessage id s.log = 0 := by
        rw [← hid, bmid]; exact hfresh0
      rw [countNewMessage] at hz
      rw [hz, if_pos hid]
    · have := h.atMostOne id
      rw [countNewMessage] at this
      rw [if_neg hid]
      omega
  · intro m hm
    rcases List.mem_append.mp hm with hm' | hm'
    · have hold := h.taskStored m hm'
      rw [createMessage_snd]
      show (mapGet (mapSet s.storage.messages s.storage.currentMessageId _) m.id).isSome = true
      rw [mapGet_isSome_iff] at hold ⊢
      rw [mapSet_of_none _ (mapGet_currentMessageId_none h.storage_inv), List.map_append]
      exact List.mem_append_left _ hold
    · rw [List.mem_singleton.mp hm']
      rw [createMessage_snd, bmid]
      show (mapGet (mapSet s.storage.messages s.storage.currentMessageId _)
        s.storage.currentMessageId).isSome = true
      rw [mapGet_mapSet_self]
      rfl
  · intro id
    show UpdateAfterCreate id (s.log ++ [_])
    intro p hp hsu
    rcases prefix_of_append hp with hp' | ⟨t', ht', rfl⟩
    · exact h.ordered id p hp' hsu
    · rcases hsu with ⟨e, he, hsue⟩
      rcases List.mem_append.mp he with he' | he'
      · rcases h.ordered id s.log List.prefix_rfl ⟨e, he', hsue⟩ with ⟨e', he'', hnm⟩
        exact ⟨e', List.mem_append_left _ he'', hnm⟩
      · have : e = Event.newMessage (s.storage.createMessage v now).1 s.clients := by
          have := ht'.subset he'
          simpa using this
        rw [this] at hsue
        simp [isSentimentUpdateFor] at hsue
  · exact storageInv_createMessage h.storage_inv v now

/-- Firing a scheduled sentiment task preserves the invariant. -/
theorem serverInv_fire {s : ServerState} (h : ServerInv s) {m : Message}
    (hm : m ∈ s.tasks) : ServerInv (fireSentimentTask s m) := by
  obtain ⟨msg0, hGet⟩ := Option.isSome_iff_exists.mp (h.taskStored m hm)
  rw [fireSentimentTask_of_some hGet]
  have hkeys : (mapGet s.storage.messages m.id).isSome = true := by
    rw [hGet]; rfl
  have hTaskPos : 0 < countTask m.id s.tasks := by
    rw [countTask]
    exact List.countP_pos_iff.mpr ⟨m, hm, by simp⟩
  have hNMex : ∃ e ∈ s.log, isNewMessageFor m.id e = true := by
    have hb := h.balance m.id
    have : 0 < countNewMessage m.id s.log := by omega
    rw [countNewMessage] at this
    exact List.countP_pos_iff.mp this
  refine ⟨?_, ?_, ?_, ?_, ?_, ?_⟩
  · intro id
    show countSentimentUpdate id (s.log ++ [_]) + countTask id (s.tasks.erase m) =
      countNewMessage id (s.log ++ [_])
    rw [countSentimentUpdate, List.countP_append, countP_sentimentUpdate_single,
      countNewMessage, List.countP_append]
    rw [show List.countP (isNewMessageFor id)
        [Event.sentimentUpdate m.id (analyzeSentiment m.text) s.clients] = 0 by
      simp [List.countP_cons, isNewMessageFor]]
    have hb := h.balance id
    rw [countSentimentUpdate, countNewMessage, countTask] at hb
    by_cases hid : m.id = id
    · have he := countP_erase_pos (p := fun x => x.id == id) hm (by simp [hid])
      rw [countTask]
      rw [if_pos hid]
      omega
    · have he := countP_erase_neg (p := fun x => x.id == id) (a := m)
        (l := s.tasks) (by simp [hid])
      rw [countTask, he, if_neg hid]
      omega
  · intro id hid
    have hcur : (s.storage.updateMessageSentiment m.id
        (analyzeSentiment m.text)).2.currentMessageId = s.storage.currentMessageId := by
      rw [updateMessageSentiment_of_some _ hGet]
    have hid' : s.storage.currentMessageId ≤ id := by
      rw [← hcur]; exact hid
    show countNewMessage id (s.log ++ [_]) = 0
    rw [countNewMessage, List.countP_append]
    rw [show List.countP (isNewMessageFor id)
        [Event.sentimentUpdate m.id (analyzeSentiment m.text) s.clients] = 0 by
      simp [List.countP_cons, isNewMessageFor]]
    have h1 := h.fresh id hid'
    rw [countNewMessage] at h1
    omega
  · intro id
    show countNewMessage id (s.log ++ [_]) ≤ 1
    rw [countNewMessage, List.countP_append]
    rw [show List.countP (isNewMessageFor id)
        [Event.sentimentUpdate m.id (analyzeSentiment m.text) s.clients] = 0 by
      simp [List.countP_cons, isNewMessageFor]]
    have := h.atMostOne id
    rw [countNewMessage] at this
    omega
  · intro m' hm'
    have hold := h.taskStored m' (List.mem_of_mem_erase hm')
    show (mapGet (s.storage.updateMessageSentiment m.id (analyzeSentiment m.text)).2.messages
      m'.id).isSome = true
    rw [updateMessageSentiment_of_some _ hGet]
    rw [mapGet_isSome_iff] at hold ⊢
    rw [mapSet_keys_of_mem _ (mapGet_isSome_iff.mp hkeys)]
    exact hold
  · intro id
    show UpdateAfterCreate id (s.log ++ [_])
    intro p hp hsu
    rcases prefix_of_append hp with hp' | ⟨t', ht', rfl⟩
    · exact h.ordered id p hp' hsu
    · rcases hsu with ⟨e, he, hsue⟩
      rcases List.mem_append.mp he with he' | he'
      · rcases h.ordered id s.log List.prefix_rfl ⟨e, he', hsue⟩ with ⟨e', he'', hnm⟩
        exact ⟨e', List.mem_append_left _ he'', hnm⟩
      · have : e = Event.sentimentUpdate m.id (analyzeSentiment m.text) s.clients := by
          have := ht'.subset he'
          simpa using this
        rw [this] at hsue
        have hid : m.id = id := by simpa [isSentimentUpdateFor] using hsue
        rcases hNMex with ⟨e', he'', hnm⟩
        exact ⟨e', List.mem_append_left _ he'', by rw [← hid]; exact hnm⟩
  · have := storageInv_updateMessageSentiment h.storage_inv m.id (analyzeSentiment m.text)
    exact this

/-- Submissions preserve the invariant. -/
theorem serverInv_postMessage {s : ServerState} (h : ServerInv s)
    (body : PostBody) (now : Nat) : ServerInv (postMessage s body now).2 := by
  unfold postMessage
  cases hparse : insertMessageSchemaParse body with
  | none => exact h
  | some v => exact serverInv_post_some h v now

/-- The invariant holds in every reachable server state. -/
theorem reachable_serverInv {s : ServerState} (h : Reachable s) : ServerInv s := by
  induction h with
  | init => exact serverInv_init
  | step hr hstep ih =>
      cases hstep with
      | connect c hc => exact serverInv_handleConnection ih c
      | join c hc uid un => exact serverInv_handleJoin ih c uid un
      | close c hc => exact serverInv_handleClose ih c
      | error c hc => exact serverInv_handleTransportError ih c
      | post body now => exact serverInv_postMessage ih body now
      | fire m hm => exact serverInv_fire ih hm

/- ========================================================================
   Claim theorems
   ======================================================================== -/

/-- C3.  `analyzeSentiment` lower-cases its input, computes
`hasPositive`/`hasNegative` by substring containment against the two fixed
word lists, and returns `positive` iff `hasPositive ∧ ¬hasNegative`,
`negative` iff `hasNegative ∧ ¬hasPositive`, and `neutral` when both flags
agree (neither or both matched); in particular the five pinned examples,
including the substring match of "bad" inside "badge". -/
theorem classify_rule :
    (∀ text : String,
      (analyzeSentiment text = "positive" ↔
        (hasPositiveIn text = true ∧ hasNegativeIn text = false)) ∧
      (analyzeSentiment text = "negative" ↔
        (hasNegativeIn text = true ∧ hasPositiveIn text = false)) ∧
      (hasPositiveIn text = hasNegativeIn text →
        analyzeSentiment text = "neutral")) ∧
    analyzeSentiment "I am happy" = "positive" ∧
    analyzeSentiment "this is bad" = "negative" ∧
    analyzeSentiment "I love it but it was terrible" = "neutral" ∧
    analyzeSentiment "ok fine" = "neutral" ∧
    analyzeSentiment "badge" = "negative" := by
  refine ⟨fun text => ?_, by decide, by decide, by decide, by decide, by decide⟩
  have hrw : analyzeSentiment text =
      (if hasPositiveIn text && !hasNegativeIn text then "positive"
       else if hasNegativeIn text && !hasPositiveIn text then "negative"
       else if hasPositiveIn text && hasNegativeIn text then "neutral"
       else "neutral") := rfl
  cases hp : hasPositiveIn text <;> cases hn : hasNegativeIn text <;>
    rw [hp, hn] at hrw <;> simp at hrw <;> simp [hrw, hp, hn]

/-- C3 witness: the neutral rule applied at "ok fine", where neither list
matches. -/
theorem classify_rule_witness :
    hasPositiveIn "ok fine" = hasNegativeIn "ok fine" ∧
    analyzeSentiment "ok fine" = "neutral" :=
  ⟨by decide, (classify_rule.1 "ok fine").2.2 (by decide)⟩

/-- C4.  For every store and submission, `createMessage` totally constructs
the full record with `sentiment = "pending"`, `createdAt` the creation time,
and id `currentMessageId` — strictly greater than every id previously
assigned (every stored key); the returned record is exactly the record
stored under its id, and the counter advances. -/
theorem createMessage_spec (s : MemStorage) (im : InsertMessage) (now : Nat)
    (hInv : StorageInv s) :
    (s.createMessage im now).1 =
      { id := s.currentMessageId, userId := im.userId, username := im.username,
        text := im.text, sentiment := "pending", createdAt := now } ∧
    (∀ p ∈ s.messages, p.1 < (s.createMessage im now).1.id) ∧
    mapGet (s.createMessage im now).2.messages (s.createMessage im now).1.id =
      some (s.createMessage im now).1 ∧
    (s.createMessage im now).2.currentMessageId = s.currentMessageId + 1 ∧
    StorageInv (s.createMessage im now).2 := by
  refine ⟨createMessage_fst s im now, ?_, ?_, ?_,
    storageInv_createMessage hInv im now⟩
  · intro p hp
    rw [show (s.createMessage im now).1.id = s.currentMessageId from by
      rw [createMessage_fst]]
    exact (hInv.1 p hp).2
  · rw [createMessage_snd]
    show mapGet (mapSet s.messages s.currentMessageId (s.createMessage im now).1)
      (s.createMessage im now).1.id = some (s.createMessage im now).1
    rw [show (s.createMessage im now).1.id = s.currentMessageId from by
      rw [createMessage_fst]]
    exact mapGet_mapSet_self _ _ _
  · rw [createMessage_snd]

/-- An example stored message for concrete witnesses. -/
def exMsgA : Message :=
  { id := 1, userId := "u1", username := "alice", text := "hello",
    sentiment := "pending", createdAt := 50 }

/-- An example one-entry store. -/
def exStore : MemStorage := { messages := [(1, exMsgA)], currentMessageId := 2 }

/-- C4 witness: creating a message in the concrete one-entry store. -/
theorem createMessage_spec_witness :
    StorageInv exStore ∧
    ((exStore.createMessage
        { userId := "u2", username := "bob", text := "I am happy" } 60).1 =
      { id := 2, userId := "u2", username := "bob", text := "I am happy",
        sentiment := "pending", createdAt := 60 } ∧
    (∀ p ∈ exStore.messages, p.1 < (exStore.createMessage
        { userId := "u2", username := "bob", text := "I am happy" } 60).1.id) ∧
    mapGet (exStore.createMessage
        { userId := "u2", username := "bob", text := "I am happy" } 60).2.messages
      (exStore.createMessage
        { userId := "u2", username := "bob", text := "I am happy" } 60).1.id =
      some (exStore.createMessage
        { userId := "u2", username := "bob", text := "I am happy" } 60).1 ∧
    (exStore.createMessage
        { userId := "u2", username := "bob", text := "I am happy" } 60).2.currentMessageId =
      exStore.currentMessageId + 1 ∧
    StorageInv (exStore.createMessage
        { userId := "u2", username := "bob", text := "I am happy" } 60).2) :=
  ⟨by decide, createMessage_spec exStore
    { userId := "u2", username := "bob", text := "I am happy" } 60 (by decide)⟩

/-- C6.  On every well-formed store, `getMessages` returns a permutation of
the stored values that is non-decreasing in `createdAt` and, more sharply,
sorted by the (`createdAt`, id) lexicographic order: ties between equal
timestamps come out in ascending id order, whatever interleaving of
insertions produced the store. -/
theorem getMessages_sorted (s : MemStorage) (hInv : StorageInv s) :
    (s.getMessages).Perm (mapValues s.messages) ∧
    s.getMessages.Pairwise (fun a b => a.createdAt ≤ b.createdAt) ∧
    s.getMessages.Pairwise MsgLex := by
  have hlex := sortByCreatedAt_pairwise (mapValues_pairwise_id hInv)
  refine ⟨sortByCreatedAt_perm (mapValues s.messages), ?_, hlex⟩
  refine hlex.imp ?_
  intro a b hab
  rcases hab with h | h
  · exact Nat.le_of_lt h
  · exact Nat.le_of_eq h.1

/-- A second example message: earlier timestamp, later id. -/
def exMsgB : Message :=
  { id := 2, userId := "u2", username := "bob", text := "hey",
    sentiment := "pending", createdAt := 30 }

/-- A third example message: its timestamp ties with `exMsgA`. -/
def exMsgC : Message :=
  { id := 3, userId := "u3", username := "carol", text := "yo",
    sentiment := "neutral", createdAt := 50 }

/-- A store with a `createdAt` tie between ids 1 and 3. -/
def exStoreTie : MemStorage :=
  { messages := [(1, exMsgA), (2, exMsgB), (3, exMsgC)], currentMessageId := 4 }

/-- C6 witness: the tie-broken sort of the concrete three-entry store. -/
theorem getMessages_sorted_witness :
    StorageInv exStoreTie ∧
    ((exStoreTie.getMessages).Perm (mapValues exStoreTie.messages) ∧
    exStoreTie.getMessages.Pairwise (fun a b => a.createdAt ≤ b.createdAt) ∧
    exStoreTie.getMessages.Pairwise MsgLex) :=
  ⟨by decide, getMessages_sorted exStoreTie (by decide)⟩

/-- C9 (frame property).  Updating the sentiment of a present id changes only
that record's `sentiment` field — id, userId, username, text and `createdAt`
are preserved — while the key sequence, the counter, and every other key's
binding are untouched. -/
theorem updateSentiment_frame (s : MemStorage) (id : Nat) (label : String)
    (msg : Message) (hGet : mapGet s.messages id = some msg) :
    (s.updateMessageSentiment id label).1 =
      some { id := msg.id, userId := msg.userId, username := msg.username,
             text := msg.text, sentiment := label, createdAt := msg.createdAt } ∧
    (s.updateMessageSentiment id label).2.currentMessageId = s.currentMessageId ∧
    (s.updateMessageSentiment id label).2.messages.map Prod.fst =
      s.messages.map Prod.fst ∧
    mapGet (s.updateMessageSentiment id label).2.messages id =
      some { msg with sentiment := label } ∧
    (∀ k, k ≠ id → mapGet (s.updateMessageSentiment id label).2.messages k =
      mapGet s.messages k) := by
  have hkey : id ∈ s.messages.map Prod.fst :=
    mapGet_isSome_iff.mp (by rw [hGet]; rfl)
  rw [updateMessageSentiment_of_some label hGet]
  exact ⟨rfl, rfl, mapSet_keys_of_mem _ hkey, mapGet_mapSet_self _ _ _,
    fun k hk => mapGet_mapSet_ne _ _ hk⟩

/-- C9 witness: updating id 1 of the concrete one-entry store. -/
theorem updateSentiment_frame_witness :
    mapGet exStore.messages 1 = some exMsgA ∧
    ((exStore.updateMessageSentiment 1 "positive").1 =
      some { id := exMsgA.id, userId := exMsgA.userId, username := exMsgA.username,
             text := exMsgA.text, sentiment := "positive",
             createdAt := exMsgA.createdAt } ∧
    (exStore.updateMessageSentiment 1 "positive").2.currentMessageId =
      exStore.currentMessageId ∧
    (exStore.updateMessageSentiment 1 "positive").2.messages.map Prod.fst =
      exStore.messages.map Prod.fst ∧
    mapGet (exStore.updateMessageSentiment 1 "positive").2.messages 1 =
      some { exMsgA with sentiment := "positive" } ∧
    (∀ k, k ≠ 1 → mapGet (exStore.updateMessageSentiment 1 "positive").2.messages k =
      mapGet exStore.messages k)) :=
  ⟨by decide, updateSentiment_frame exStore 1 "positive" exMsgA (by decide)⟩

/-- C7.  `updateMessageSentiment` on an absent id signals "not found" by
returning `undefined` and leaves the store exactly as it was; when the
deferred sentiment task hits this path, its state change is confined to the
schedule: no `sentiment_update` is broadcast, and storage and registry are
untouched. -/
theorem updateSentiment_notFound (s : MemStorage) (id : Nat) (label : String)
    (h : mapGet s.messages id = none) (srv : ServerState) (m : Message)
    (hm : mapGet srv.storage.messages m.id = none) :
    s.updateMessageSentiment id label = (none, s) ∧
    (fireSentimentTask srv m).log = srv.log ∧
    (fireSentimentTask srv m).storage = srv.storage ∧
    (fireSentimentTask srv m).clients = srv.clients := by
  refine ⟨updateMessageSentiment_of_none label h, ?_, ?_, ?_⟩ <;>
    rw [fireSentimentTask_of_none hm]

/-- C7 witness: id 7 is absent from the one-entry store, and the deferred
task for `exMsgA` over an empty (restarted) store broadcasts nothing. -/
theorem updateSentiment_notFound_witness :
    mapGet exStore.messages 7 = none ∧
    mapGet ServerState.init.storage.messages exMsgA.id = none ∧
    (exStore.updateMessageSentiment 7 "positive" = (none, exStore) ∧
    (fireSentimentTask ServerState.init exMsgA).log = ServerState.init.log ∧
    (fireSentimentTask ServerState.init exMsgA).storage = ServerState.init.storage ∧
    (fireSentimentTask ServerState.init exMsgA).clients = ServerState.init.clients) :=
  ⟨by decide, by decide,
   updateSentiment_notFound exStore 7 "positive" (by decide)
     ServerState.init exMsgA (by decide)⟩

/-- C8.  `POST /api/message` with an empty `text` (the schema violation the
spec names) answers 400 and has no side effect at all — no message created,
no broadcast, no deferred task; a non-empty submission answers 200 with the
created message, broadcasts it, and schedules exactly one deferred task. -/
theorem postMessage_validation (s : ServerState) (body : PostBody) (now : Nat) :
    (body.text = "" → postMessage s body now = (PostResponse.badRequest, s)) ∧
    (body.text ≠ "" →
      postMessage s body now =
        (PostResponse.ok (s.storage.createMessage
            { userId := body.userId, username := body.username,
              text := body.text } now).1,
         { s with
           storage := (s.storage.createMessage
             { userId := body.userId, username := body.username,
               text := body.text } now).2,
           log := s.log ++
             [Event.newMessage (s.storage.createMessage
               { userId := body.userId, username := body.username,
                 text := body.text } now).1 s.clients],
           tasks := s.tasks ++
             [(s.storage.createMessage
               { userId := body.userId, username := body.username,
                 text := body.text } now).1] })) := by
  constructor
  · intro h
    unfold postMessage insertMessageSchemaParse
    rw [if_pos h]
  · intro h
    unfold postMessage insertMessageSchemaParse
    rw [if_neg h]

/-- C8 witness: the empty submission is rejected without side effects on the
fresh server, and a non-empty submission is accepted with the created
message. -/
theorem postMessage_validation_witness :
    postMessage ServerState.init
      { userId := "u1", username := "alice", text := "" } 5 =
      (PostResponse.badRequest, ServerState.init) ∧
    postMessage ServerState.init
      { userId := "u1", username := "alice", text := "hi" } 5 =
      (PostResponse.ok (ServerState.init.storage.createMessage
          { userId := "u1", username := "alice", text := "hi" } 5).1,
       { ServerState.init with
         storage := (ServerState.init.storage.createMessage
           { userId := "u1", username := "alice", text := "hi" } 5).2,
         log := ServerState.init.log ++
           [Event.newMessage (ServerState.init.storage.createMessage
             { userId := "u1", username := "alice", text := "hi" } 5).1
             ServerState.init.clients],
         tasks := ServerState.init.tasks ++
           [(ServerState.init.storage.createMessage
             { userId := "u1", username := "alice", text := "hi" } 5).1] }) :=
  ⟨(postMessage_validation ServerState.init
      { userId := "u1", username := "alice", text := "" } 5).1 rfl,
   (postMessage_validation ServerState.init
      { userId := "u1", username := "alice", text := "hi" } 5).2 (by decide)⟩

/-- A concrete state in which connection 1 has joined as "alice". -/
def joinedState : ServerState :=
  handleJoin (handleConnection ServerState.init 1) 1 "u1" "alice"

/-- C1 counterexample.  Connection 1 of `joinedState` is already `JOINED`
(its identity was recorded by a prior join), yet processing a further
identical join event is not a no-op: the `initial_messages` snapshot is sent
to it again and a second `user_joined` broadcast is emitted. -/
theorem rejoin_counterexample :
    strTruthy (joinedState.conns 1).username = true ∧
    (handleJoin joinedState 1 "u1" "alice").log =
      joinedState.log ++
        [Event.initialMessages 1 [], Event.userJoined "alice" 1 [1]] ∧
    (handleJoin joinedState 1 "u1" "alice").log ≠ joinedState.log := by
  exact ⟨by decide, by decide, by decide⟩

/-- C1 amended.  Join handling is unconditional on session state: a join
event received while already `JOINED` re-records the identity carried by the
event, re-sends the `initial_messages` snapshot to the connection, and
re-broadcasts `user_joined` (with the unchanged registry size) to the full
registry. -/
theorem rejoin_repeats_join (s : ServerState) (c : Nat) (uid un : String)
    (hJoined : strTruthy (s.conns c).username = true) :
    (handleJoin s c uid un).conns c =
      { userId := some uid, username := some un } ∧
    (handleJoin s c uid un).log = s.log ++
      [Event.initialMessages c s.storage.getMessages,
       Event.userJoined un s.clients.length s.clients] := by
  exact ⟨by simp [handleJoin], rfl⟩

/-- C1 amended witness: re-joining from `joinedState`. -/
theorem rejoin_repeats_join_witness :
    strTruthy (joinedState.conns 1).username = true ∧
    ((handleJoin joinedState 1 "u1" "alice").conns 1 =
      { userId := some "u1", username := some "alice" } ∧
    (handleJoin joinedState 1 "u1" "alice").log = joinedState.log ++
      [Event.initialMessages 1 joinedState.storage.getMessages,
       Event.userJoined "alice" joinedState.clients.length joinedState.clients]) :=
  ⟨by decide, rejoin_repeats_join joinedState 1 "u1" "alice" (by decide)⟩

/-- A concrete state in which connection 1 joined with the empty username. -/
def emptyNameState : ServerState :=
  handleJoin (handleConnection ServerState.init 1) 1 "u1" ""

/-- C2 counterexample.  Connection 1 of `emptyNameState` reached `JOINED`
(its identity was recorded by a join event), yet its close removes it from
the registry without broadcasting any `user_left`: the teardown tests the
recorded username for JS truthiness, and `""` is falsy.  This refutes
"user_left is broadcast if and only if the connection had reached JOINED". -/
theorem close_counterexample :
    (emptyNameState.conns 1).username = some "" ∧
    (handleClose emptyNameState 1).clients = [] ∧
    (handleClose emptyNameState 1).log = emptyNameState.log := by
  exact ⟨by decide, by decide, by decide⟩

/-- The close handler always removes the connection from the registry. -/
theorem handleClose_clients (s : ServerState) (c : Nat) :
    (handleClose s c).clients = s.clients.filter (fun k => k != c) := by
  unfold handleClose
  cases (s.conns c).username with
  | none => rfl
  | some u => by_cases he : u = "" <;> simp [he]

/-- The close handler leaves the identity fields alone. -/
theorem handleClose_conns (s : ServerState) (c : Nat) :
    (handleClose s c).conns = s.conns := by
  unfold handleClose
  cases (s.conns c).username with
  | none => rfl
  | some u => by_cases he : u = "" <;> simp [he]

/-- Close with a truthy recorded username broadcasts `user_left` with the
post-removal registry size to the remaining registry. -/
theorem handleClose_log_truthy {s : ServerState} {c : Nat} {u : String}
    (hu : (s.conns c).username = some u) (hne : u ≠ "") :
    (handleClose s c).log = s.log ++
      [Event.userLeft u (s.clients.filter (fun k => k != c)).length
        (s.clients.filter (fun k => k != c))] := by
  unfold handleClose
  rw [hu]
  simp [hne]

/-- Close with a falsy recorded username (unset or empty) broadcasts
nothing. -/
theorem handleClose_log_falsy {s : ServerState} {c : Nat}
    (h : strTruthy (s.conns c).username = false) :
    (handleClose s c).log = s.log := by
  unfold handleClose
  cases hu : (s.conns c).username with
  | none => rfl
  | some u =>
      rw [hu] at h
      simp only [strTruthy, Bool.not_eq_true'] at h
      have he : u = "" := by simpa using h
      simp [he]

/-- C2 amended.  On transport close — and on a transport error, whose
`'error'` handler removes the connection and whose mandatory subsequent
`'close'` event runs the close handler — the connection is removed from the
registry, and a `user_left` event carrying its username and the post-removal
raw registry size (the plain count of registered connections, not
deduplicated by username) is broadcast to the remaining connections iff the
recorded username is truthy, i.e. iff the connection had joined with a
non-empty username; `user_joined` likewise carries the raw registry size. -/
theorem close_teardown (s : ServerState) (c : Nat) (h : c ∈ s.clients) :
    ((handleClose s c).clients = s.clients.filter (fun k => k != c) ∧
     (handleTransportError s c).clients = s.clients.filter (fun k => k != c) ∧
     c ∉ (handleClose s c).clients ∧ c ∉ (handleTransportError s c).clients) ∧
    (∀ u, (s.conns c).username = some u → u ≠ "" →
      (handleClose s c).log = s.log ++
        [Event.userLeft u (s.clients.filter (fun k => k != c)).length
          (s.clients.filter (fun k => k != c))] ∧
      (handleTransportError s c).log = s.log ++
        [Event.userLeft u (s.clients.filter (fun k => k != c)).length
          (s.clients.filter (fun k => k != c))]) ∧
    (strTruthy (s.conns c).username = false →
      (handleClose s c).log = s.log ∧ (handleTransportError s c).log = s.log) ∧
    (∀ uid un, (handleJoin s c uid un).log = s.log ++
      [Event.initialMessages c s.storage.getMessages,
       Event.userJoined un s.clients.length s.clients]) := by
  have hff : (s.clients.filter (fun k => k != c)).filter (fun k => k != c) =
      s.clients.filter (fun k => k != c) := by
    rw [List.filter_filter]
    apply List.filter_congr
    intro a _
    cases hak : a == c <;> simp [hak]
  have herr_conns : (handleError s c).conns = s.conns := rfl
  have herr_clients : (handleError s c).clients =
      s.clients.filter (fun k => k != c) := rfl
  have herr_log : (handleError s c).log = s.log := rfl
  refine ⟨⟨handleClose_clients s c, ?_, ?_, ?_⟩, ?_, ?_, fun uid un => rfl⟩
  · show (handleClose (handleError s c) c).clients = _
    rw [handleClose_clients, herr_clients, hff]
  · rw [handleClose_clients]
    simp [List.mem_filter]
  · show c ∉ (handleClose (handleError s c) c).clients
    rw [handleClose_clients, herr_clients, hff]
    simp [List.mem_filter]
  · intro u hu hne
    have hu' : ((handleError s c).conns c).username = some u := by
      rw [herr_conns]; exact hu
    refine ⟨handleClose_log_truthy hu hne, ?_⟩
    show (handleClose (handleError s c) c).log = _
    rw [handleClose_log_truthy hu' hne, herr_log, herr_clients, hff]
  · intro hfalse
    have hfalse' : strTruthy ((handleError s c).conns c).username = false := by
      rw [herr_conns]; exact hfalse
    refine ⟨handleClose_log_falsy hfalse, ?_⟩
    show (handleClose (handleError s c) c).log = s.log
    rw [handleClose_log_falsy hfalse', herr_log]

/-- C2 amended witness: closing the joined connection of `joinedState`
broadcasts `user_left "alice"` with raw size 0 to the emptied registry; the
same holds through the transport-error path. -/
theorem close_teardown_witness :
    (1 : Nat) ∈ joinedState.clients ∧
    (joinedState.conns 1).username = some "alice" ∧ "alice" ≠ "" ∧
    ((handleClose joinedState 1).clients =
      joinedState.clients.filter (fun k => k != 1) ∧
    (handleClose joinedState 1).log = joinedState.log ++
      [Event.userLeft "alice" (joinedState.clients.filter (fun k => k != 1)).length
        (joinedState.clients.filter (fun k => k != 1))] ∧
    (handleTransportError joinedState 1).log = joinedState.log ++
      [Event.userLeft "alice" (joinedState.clients.filter (fun k => k != 1)).length
        (joinedState.clients.filter (fun k => k != 1))]) :=
  ⟨by decide, by decide, by decide,
   ((close_teardown joinedState 1 (by decide)).1.1),
   ((close_teardown joinedState 1 (by decide)).2.1 "alice" (by decide) (by decide)).1,
   ((close_teardown joinedState 1 (by decide)).2.1 "alice" (by decide) (by decide)).2⟩

/-- C10.  A join event carrying the empty username is processed like any
other: the identity (with `username = ""`) is recorded, the snapshot is sent
to the connection, and `user_joined` is broadcast; but when that connection
later closes it is removed silently — the teardown's truthiness test on the
recorded username treats `""` as never having joined, so no `user_left` is
broadcast. -/
theorem emptyUsername_join (s : ServerState) (c : Nat) (uid : String)
    (h : c ∈ s.clients) :
    (handleJoin s c uid "").conns c =
      { userId := some uid, username := some "" } ∧
    (handleJoin s c uid "").log = s.log ++
      [Event.initialMessages c s.storage.getMessages,
       Event.userJoined "" s.clients.length s.clients] ∧
    (handleClose (handleJoin s c uid "") c).log = (handleJoin s c uid "").log ∧
    (handleClose (handleJoin s c uid "") c).clients =
      s.clients.filter (fun k => k != c) := by
  have hconn : (handleJoin s c uid "").conns c =
      { userId := some uid, username := some "" } := by
    simp [handleJoin]
  refine ⟨hconn, rfl, ?_, ?_⟩
  · apply handleClose_log_falsy
    rw [show ((handleJoin s c uid "").conns c).username = some "" from by
      rw [hconn]]
    rfl
  · rw [handleClose_clients]
    rfl

/-- C10 witness: connection 1 joins with the empty username on the fresh
server, then closes silently. -/
theorem emptyUsername_join_witness :
    (1 : Nat) ∈ (handleConnection ServerState.init 1).clients ∧
    ((handleJoin (handleConnection ServerState.init 1) 1 "u1" "").conns 1 =
      { userId := some "u1", username := some "" } ∧
    (handleJoin (handleConnection ServerState.init 1) 1 "u1" "").log =
      (handleConnection ServerState.init 1).log ++
        [Event.initialMessages 1
          (handleConnection ServerState.init 1).storage.getMessages,
         Event.userJoined "" (handleConnection ServerState.init 1).clients.length
           (handleConnection ServerState.init 1).clients] ∧
    (handleClose (handleJoin (handleConnection ServerState.init 1) 1 "u1" "") 1).log =
      (handleJoin (handleConnection ServerState.init 1) 1 "u1" "").log ∧
    (handleClose (handleJoin (handleConnection ServerState.init 1) 1 "u1" "") 1).clients =
      (handleConnection ServerState.init 1).clients.filter (fun k => k != 1)) :=
  ⟨by decide, emptyUsername_join (handleConnection ServerState.init 1) 1 "u1" (by decide)⟩

/-- C5.  In every reachable server state, a `sentiment_update` for a message
appears in the log only strictly after that message's `new_message`
broadcast, and at most once; once every scheduled deferred task has fired
("eventually", under the event-loop's timer guarantee), every accepted
message has received exactly one `sentiment_update` — the store never evicts,
so the deferred update never misses. -/
theorem sentimentUpdate_once_after (s : ServerState) (hr : Reachable s)
    (id : Nat) :
    (UpdateAfterCreate id s.log ∧ countSentimentUpdate id s.log ≤ 1) ∧
    (s.tasks = [] → HasNewMessageFor id s.log →
      countSentimentUpdate id s.log = 1) := by
  have hInv := reachable_serverInv hr
  have hb := hInv.balance id
  have h1 := hInv.atMostOne id
  refine ⟨⟨hInv.ordered id, by omega⟩, ?_⟩
  intro ht hm
  rw [ht] at hb
  have hpos : 0 < countNewMessage id s.log := by
    rw [countNewMessage]
    exact List.countP_pos_iff.mpr hm
  rw [countTask] at hb
  simp only [List.countP_nil] at hb
  omega

/-- The submitted body of the C5 witness run. -/
def exBody : PostBody :=
  { userId := "u1", username := "alice", text := "I am happy" }

/-- The server after accepting the witness submission. -/
def exAfterPost : ServerState := (postMessage ServerState.init exBody 100).2

/-- The message the witness submission creates. -/
def exMsgPosted : Message :=
  { id := 1, userId := "u1", username := "alice", text := "I am happy",
    sentiment := "pending", createdAt := 100 }

/-- The server after the deferred sentiment task has fired. -/
def exFinal : ServerState := fireSentimentTask exAfterPost exMsgPosted

/-- The two-step witness run is reachable. -/
theorem exFinal_reachable : Reachable exFinal :=
  Reachable.step (Reachable.step Reachable.init (Step.post exBody 100))
    (Step.fire exMsgPosted (by decide))

/-- C5 witness: after submit-then-fire on the fresh server, message 1 has
exactly one `sentiment_update`, placed after its `new_message`. -/
theorem sentimentUpdate_once_after_witness :
    Reachable exFinal ∧ exFinal.tasks = [] ∧ HasNewMessageFor 1 exFinal.log ∧
    UpdateAfterCreate 1 exFinal.log ∧ countSentimentUpdate 1 exFinal.log = 1 :=
  ⟨exFinal_reachable, by decide, by decide,
   (sentimentUpdate_once_after exFinal exFinal_reachable 1).1.1,
   (sentimentUpdate_once_after exFinal exFinal_reachable 1).2 (by decide) (by decide)⟩
